import Mathlib

/-!
A shallow embedding of the Arachne user-level scheduler core.

This file models, in Lean 4, the per-core scheduler of the Arachne M:N
threading runtime (`Arachne.cc` plus the `CoreLoadEstimator`), and proves
properties of the model corresponding to sentences of the runtime's
specification.

Modelling conventions:
* machine integers are `Nat` with explicit `% 2^w` where wraparound matters
  (`uint64_t` wakeup values and generations, the 8-bit `numOccupied`
  bitfield, `uint32_t` core counts);
* the sentinels `UNOCCUPIED = ~0` and `BLOCKED = ~0 - 1` are the
  corresponding 64-bit values;
* loops are written as structurally recursive functions, with an explicit
  fuel argument where the C loop is bounded only by the data (the fuel is
  always at least the 64-bit width or the list length, so it never cuts a
  run short on inputs the C code can see);
* the concurrent code is modelled sequentially: an atomic read-modify-write
  acts on the state it reads, and cross-core interference shows up as
  explicitly quantified inputs (e.g. the clock samples and occupied-mask
  reloads that `dispatch` re-reads on every wrap of its scan loop).
-/

namespace Arachne

/-- Per-core slot count (default in the specification; `idInCore` is bounded
by it, ≤ 56 so the packed mask word has 8 bits of headroom for the count). -/
def maxThreadsPerCore : Nat := 56

/-- Sentinel: the slot holds no live thread (`~0` as a `uint64_t`). -/
def UNOCCUPIED : Nat := 2 ^ 64 - 1

/-- Sentinel: the thread exists but has no scheduled wakeup (`~0 - 1`). -/
def BLOCKED : Nat := 2 ^ 64 - 2

/-- Modelled from the spec: the fixed stack-canary sentinel stored in the
first 8 bytes of every stack. Its exact numeric value lives in `Arachne.h`,
which is not among the available sources; every theorem below depends only
on it being one fixed 64-bit constant, never on the value itself. -/
def StackCanary : Nat := 0xBAADF00D

/-- The fields of `ThreadContext` that the modelled operations touch.
The raw stack is represented only by its first 8 bytes (the canary word);
`sp` and the invocation buffer are machine-level state outside the model. -/
structure ThreadContext where
  wakeupTimeInCycles : Nat
  generation : Nat
  coreId : Nat
  idInCore : Nat
  stackFirst8 : Nat
deriving DecidableEq

/-- `ThreadContext::ThreadContext(coreId, idInCore)`: the slot starts
unoccupied, at generation 1, and the constructor seeds the canary into the
first 8 bytes of the freshly allocated stack. -/
def mkThreadContext (coreId idInCore : Nat) : ThreadContext :=
  { wakeupTimeInCycles := UNOCCUPIED
    generation := 1
    coreId := coreId
    idInCore := idInCore
    stackFirst8 := StackCanary }

/-- `dispatch()`'s entry check: true exactly when the first 8 bytes of the
loaded context's stack differ from the canary, in which case the code
writes a diagnostic to the error stream and aborts the process. -/
def dispatchCanaryAborts (loadedContext : ThreadContext) : Bool :=
  loadedContext.stackFirst8 != StackCanary

/-- The state `signal` reads and writes: the target's context and the
global `publicPriorityMasks` array (one 64-bit word per core). -/
structure SignalWorld where
  ctx : ThreadContext
  publicPriorityMasks : List Nat
deriving DecidableEq

/-- `signal(id)`: read the target's wakeup; if it is not `UNOCCUPIED`,
CAS 0 into it and OR the bit `idInCore` into the target core's public
priority mask, provided `coreId` is not `(uint8_t)~0 = 255`. `signal`
never consults `id.generation`; only `id.context` matters. -/
def signal (w : SignalWorld) : SignalWorld :=
  let oldWakeupTime := w.ctx.wakeupTimeInCycles
  if oldWakeupTime ≠ UNOCCUPIED then
    let w1 : SignalWorld := { w with ctx := { w.ctx with wakeupTimeInCycles := 0 } }
    if w.ctx.coreId ≠ 255 then
      { w1 with
        publicPriorityMasks :=
          w1.publicPriorityMasks.set w.ctx.coreId
            ((w1.publicPriorityMasks.getD w.ctx.coreId 0) ||| (1 <<< w.ctx.idInCore)) }
    else w1
  else w

/-- `ThreadId`: a context paired with the generation remembered at creation
time. `NullThread` is the null sentinel (no context). -/
structure ThreadId where
  context : Option ThreadContext
  generation : Nat
deriving DecidableEq

/-- The null sentinel thread handle. -/
def NullThread : ThreadId := ⟨none, 0⟩

/-- `getThreadId()`: `NullThread` when no Arachne context is loaded,
otherwise the loaded context paired with its current generation. -/
def getThreadId (loadedContext : Option ThreadContext) : ThreadId :=
  match loadedContext with
  | some c => ⟨some c, c.generation⟩
  | none => NullThread

/-- `join(id)` body: after taking `joinLock`, the caller waits on `joinCV`
iff `id.generation` equals the context's current generation; otherwise the
target has already exited and `join` returns immediately. The returned
`Bool` is `true` exactly when the caller blocks on the condition variable. -/
def joinWaits (idGeneration : Nat) (ctx : ThreadContext) : Bool :=
  idGeneration == ctx.generation

/-- The exit path of `schedulerMainLoop`, up to (but not including) the
`joinCV.notifyAll()` call: the exiting thread writes `UNOCCUPIED` into its
own wakeup word and bumps the 64-bit generation counter. The notification
and the occupancy-bit clearing act on the state this function returns. -/
def threadExitPreNotify (c : ThreadContext) : ThreadContext :=
  { c with
    wakeupTimeInCycles := UNOCCUPIED
    generation := (c.generation + 1) % 2 ^ 64 }

/-! ## Claims C1, C10, C7, C4 -/

/-- Claim C1: `signal(id)` sets the target's `wakeupTimeInCycles` to 0 iff
its current value is not `UNOCCUPIED`; in that same case (and only then) it
ORs bit `idInCore` into `publicPriorityMasks[coreId]` provided `coreId` is
valid (≠ `(uint8_t)~0`); if the value read is `UNOCCUPIED`, `signal`
leaves all state unchanged. -/
theorem signal_conditional_wakeup (w : SignalWorld) :
    (w.ctx.wakeupTimeInCycles = UNOCCUPIED → signal w = w) ∧
    (w.ctx.wakeupTimeInCycles ≠ UNOCCUPIED →
      (signal w).ctx.wakeupTimeInCycles = 0 ∧
      (signal w).ctx.generation = w.ctx.generation ∧
      (signal w).ctx.coreId = w.ctx.coreId ∧
      (signal w).ctx.idInCore = w.ctx.idInCore ∧
      (w.ctx.coreId ≠ 255 →
        (signal w).publicPriorityMasks =
          w.publicPriorityMasks.set w.ctx.coreId
            ((w.publicPriorityMasks.getD w.ctx.coreId 0) ||| (1 <<< w.ctx.idInCore))) ∧
      (w.ctx.coreId = 255 → (signal w).publicPriorityMasks = w.publicPriorityMasks)) := by
  constructor
  · intro h
    simp [signal, h]
  · intro h
    by_cases hc : w.ctx.coreId = 255 <;>
      refine ⟨?_, ?_, ?_, ?_, ?_, ?_⟩ <;>
      simp [signal, h, hc]

theorem signal_conditional_wakeup_witness :
    ((⟨⟨7, 1, 0, 3, StackCanary⟩, [0]⟩ : SignalWorld).ctx.wakeupTimeInCycles ≠ UNOCCUPIED) ∧
    (signal ⟨⟨7, 1, 0, 3, StackCanary⟩, [0]⟩).ctx.wakeupTimeInCycles = 0 ∧
    (signal ⟨⟨7, 1, 0, 3, StackCanary⟩, [0]⟩).publicPriorityMasks = [8] := by
  have h := signal_conditional_wakeup ⟨⟨7, 1, 0, 3, StackCanary⟩, [0]⟩
  refine ⟨by decide, (h.2 (by decide)).1, ?_⟩
  have hm := (h.2 (by decide)).2.2.2.2.1 (by decide)
  simpa using hm

/-- Claim C10: `getThreadId()` returns `NullThread` when no Arachne context
is loaded, and otherwise the loaded context paired with its current
generation. -/
theorem getThreadId_spec :
    getThreadId none = NullThread ∧
    ∀ c : ThreadContext, getThreadId (some c) = ⟨some c, c.generation⟩ := by
  exact ⟨rfl, fun c => rfl⟩

/-- Claim C7: `dispatch()` aborts exactly when the first 8 bytes of the
loaded context's stack differ from the canary sentinel; the `ThreadContext`
constructor seeds that sentinel, so on an un-overflowed stack the abort
branch is unreachable. -/
theorem dispatch_canary_abort_iff :
    (∀ c : ThreadContext,
        dispatchCanaryAborts c = true ↔ c.stackFirst8 ≠ StackCanary) ∧
    (∀ coreId idInCore : Nat,
        dispatchCanaryAborts (mkThreadContext coreId idInCore) = false) := by
  constructor
  · intro c
    simp [dispatchCanaryAborts]
  · intro coreId idInCore
    simp [dispatchCanaryAborts, mkThreadContext]

/-- A slot context after one full lifecycle and reuse: the previous
occupant exited (bumping the generation from 1 to 2 and writing
`UNOCCUPIED`), and a new thread was then created in the same slot and is
currently blocked in `dispatch` (`wakeupTimeInCycles = BLOCKED`). -/
def recycledCtx : ThreadContext :=
  { threadExitPreNotify (mkThreadContext 0 3) with wakeupTimeInCycles := BLOCKED }

/-- The world seen by a signaler holding the stale `ThreadId` of the
exited occupant (generation 1) of `recycledCtx`'s slot. -/
def recycledWorld : SignalWorld :=
  { ctx := recycledCtx, publicPriorityMasks := [0] }

/-- Claim C4 (counterexample): with the slot of `recycledCtx` recycled,
`join` on the stale id (generation 1 vs current generation 2) returns
immediately, yet a subsequent `signal` on the same stale id still changes
state: it CASes 0 into the new occupant's wakeup word and raises its
priority bit — an observable effect on a thread, refuting "after `join(id)`
returns, a subsequent `signal(id)` has no observable effect on any
thread". -/
theorem join_then_signal_effect_counterexample :
    joinWaits 1 recycledCtx = false ∧
    signal recycledWorld ≠ recycledWorld ∧
    (signal recycledWorld).ctx.wakeupTimeInCycles = 0 ∧
    (signal recycledWorld).publicPriorityMasks = [8] := by
  refine ⟨by decide, by decide, by decide, by decide⟩

/-- Claim C4 (amended): after `join(id)` returns and **as long as the slot
has not been recycled** (its wakeup word still reads `UNOCCUPIED`), a
subsequent `signal(id)` leaves all state unchanged; `join(id)` returns
immediately exactly when `id.generation` differs from the context's current
generation; and the exiting thread writes `UNOCCUPIED` and increments the
generation before joiners are notified. -/
theorem join_signal_generation_spec :
    (∀ w : SignalWorld, w.ctx.wakeupTimeInCycles = UNOCCUPIED → signal w = w) ∧
    (∀ (idGeneration : Nat) (ctx : ThreadContext),
        joinWaits idGeneration ctx = false ↔ idGeneration ≠ ctx.generation) ∧
    (∀ c : ThreadContext,
        (threadExitPreNotify c).wakeupTimeInCycles = UNOCCUPIED ∧
        (threadExitPreNotify c).generation = (c.generation + 1) % 2 ^ 64) := by
  refine ⟨?_, ?_, ?_⟩
  · intro w h
    simp [signal, h]
  · intro idGeneration ctx
    simp [joinWaits]
  · intro c
    exact ⟨rfl, rfl⟩

theorem join_signal_generation_spec_witness :
    signal ⟨⟨UNOCCUPIED, 5, 0, 3, StackCanary⟩, [0]⟩ =
      ⟨⟨UNOCCUPIED, 5, 0, 3, StackCanary⟩, [0]⟩ ∧
    joinWaits 1 (threadExitPreNotify (mkThreadContext 0 3)) = false := by
  constructor
  · exact (join_signal_generation_spec.1 ⟨⟨UNOCCUPIED, 5, 0, 3, StackCanary⟩, [0]⟩ (by decide))
  · exact (join_signal_generation_spec.2.1 1 (threadExitPreNotify (mkThreadContext 0 3))).2
      (by decide)

/-! ## Claim C6: the priority phase of `dispatch()` -/

/-- `ffsll` (find first set, one-indexed; 0 when no bit is set), with the
64-bit width as structural fuel. -/
def ffsllAux : Nat → Nat → Nat
  | 0, _ => 0
  | fuel + 1, n =>
    if n % 2 = 1 then 1
    else
      let r := ffsllAux fuel (n / 2)
      if r = 0 then 0 else r + 1

/-- `ffsll` on a 64-bit word. -/
def ffsll (n : Nat) : Nat := ffsllAux 64 n

/-- 64-bit `a & ~b`. -/
def andNot64 (a b : Nat) : Nat := a &&& ((2 ^ 64 - 1) ^^^ b)

theorem ffsllAux_spec : ∀ (fuel n : Nat), n ≠ 0 → n < 2 ^ fuel →
    ffsllAux fuel n ≠ 0 ∧
    n.testBit (ffsllAux fuel n - 1) = true ∧
    ∀ j < ffsllAux fuel n - 1, n.testBit j = false := by
  intro fuel
  induction fuel with
  | zero => intro n hn hlt; omega
  | succ fuel ih =>
    intro n hn hlt
    by_cases hpar : n % 2 = 1
    · refine ⟨by simp [ffsllAux, hpar], ?_, ?_⟩
      · simp [ffsllAux, hpar, Nat.testBit_zero]
      · intro j hj
        simp [ffsllAux, hpar] at hj
    · have hhalf : n / 2 ≠ 0 := by omega
      have hhlt : n / 2 < 2 ^ fuel := by
        have : (2:Nat) ^ (fuel + 1) = 2 ^ fuel * 2 := by ring
        omega
      obtain ⟨hr0, hbit, hmin⟩ := ih (n / 2) hhalf hhlt
      have hres : ffsllAux (fuel + 1) n = ffsllAux fuel (n / 2) + 1 := by
        simp [ffsllAux, hpar, hr0]
      refine ⟨by omega, ?_, ?_⟩
      · rw [hres]
        have : ffsllAux fuel (n / 2) + 1 - 1 = (ffsllAux fuel (n / 2) - 1) + 1 := by omega
        rw [this, Nat.testBit_add_one]
        exact hbit
      · intro j hj
        rw [hres] at hj
        match j with
        | 0 => simp [Nat.testBit_zero]; omega
        | j' + 1 =>
          rw [Nat.testBit_add_one]
          exact hmin j' (by omega)

theorem ffsll_spec (n : Nat) (hn : n ≠ 0) (hlt : n < 2 ^ 64) :
    ffsll n ≠ 0 ∧ n.testBit (ffsll n - 1) = true ∧
    ∀ j < ffsll n - 1, n.testBit j = false :=
  ffsllAux_spec 64 n hn hlt

theorem and_complement_self_eq_zero (a : Nat) (ha : a < 2 ^ 64) :
    andNot64 a a = 0 := by
  apply Nat.eq_of_testBit_eq
  intro i
  simp only [andNot64, Nat.testBit_and, Nat.testBit_xor, Nat.testBit_two_pow_sub_one,
    Nat.zero_testBit]
  by_cases hb : a.testBit i
  · have hi : i < 64 := by
      by_contra hge
      have := Nat.testBit_lt_two_pow (x := a) (i := i)
        (Nat.lt_of_lt_of_le ha (Nat.pow_le_pow_right (by omega) (by omega)))
      simp [this] at hb
    simp [hb, hi]
  · simp [hb]

theorem testBit_ones64 (i : Nat) : (2 ^ 64 - 1 : Nat).testBit i = decide (i < 64) :=
  Nat.testBit_two_pow_sub_one 64 i

theorem testBit_andNot64_self (m k : Nat) (hk : k < 64) :
    (andNot64 m (1 <<< k)).testBit k = false := by
  rw [andNot64, Nat.testBit_and, Nat.testBit_xor, Nat.shiftLeft_eq, one_mul,
    testBit_ones64, Nat.testBit_two_pow]
  simp [hk]

theorem testBit_andNot64_other (m j k : Nat) (hjk : j ≠ k) (hj : j < 64) :
    (andNot64 m (1 <<< k)).testBit j = m.testBit j := by
  rw [andNot64, Nat.testBit_and, Nat.testBit_xor, Nat.shiftLeft_eq, one_mul,
    testBit_ones64, Nat.testBit_two_pow]
  simp [hj, Ne.symm hjk]

/-- The result of the priority phase at the top of `dispatch()`: the slot
to switch to (if any), and the private and public priority masks as the
phase leaves them. -/
structure PriorityPhaseResult where
  switchTo : Option Nat
  privatePriorityMask : Nat
  publicPriorityMask : Nat
deriving DecidableEq

/-- The priority phase of `dispatch()` (`Arachne.cc` lines 361–393): if
`privatePriorityMask` is zero, copy the public mask into it and clear the
copied bits from the public mask; then, if a private bit remains, take the
lowest set bit `k` (`ffsll`, one-indexed), clear it, and switch to slot `k`
iff its wakeup is exactly 0 and its occupancy bit is set in `mask` (the
occupied bitmap sampled at dispatch entry); otherwise fall through to the
round-robin scan. -/
def dispatchPriorityPhase (wakeups : List Nat) (mask privMask pubMask : Nat) :
    PriorityPhaseResult :=
  let st :=
    if privMask = 0 then
      let p := pubMask
      (p, if p ≠ 0 then andNot64 pubMask p else pubMask)
    else (privMask, pubMask)
  let priv1 := st.1
  let pub1 := st.2
  if priv1 ≠ 0 then
    let firstSetBit := ffsll priv1
    if firstSetBit ≠ 0 then
      let k := firstSetBit - 1
      let priv2 := andNot64 priv1 (1 <<< k)
      if wakeups.getD k UNOCCUPIED = 0 ∧ Nat.testBit mask k then
        ⟨some k, priv2, pub1⟩
      else
        ⟨none, priv2, pub1⟩
    else ⟨none, priv1, pub1⟩
  else ⟨none, priv1, pub1⟩

/-- The private priority word the phase examines: the old private mask, or
the drained copy of the public mask when the private one was empty. -/
def effectivePriority (privMask pubMask : Nat) : Nat :=
  if privMask = 0 then pubMask else privMask

/-- Claim C6: in `dispatch()`'s priority phase, an empty private mask is
refilled by copying the public mask and clearing the copied bits from the
public mask; the lowest set private bit `k` leads to a switch exactly when
slot `k` is occupied and its wakeup is exactly 0, and otherwise the
dispatcher falls through; in either case bit `k` is consumed (cleared from
the private mask, and already absent from the public one), so an elevation
is not persistent. -/
theorem dispatch_priority_phase_spec (wakeups : List Nat) (mask privMask pubMask : Nat)
    (hpub : pubMask < 2 ^ 64) (hpriv : privMask < 2 ^ 64) :
    (dispatchPriorityPhase wakeups mask privMask pubMask).publicPriorityMask =
      (if privMask = 0 then 0 else pubMask) ∧
    (effectivePriority privMask pubMask = 0 →
      dispatchPriorityPhase wakeups mask privMask pubMask =
        ⟨none, 0, if privMask = 0 then 0 else pubMask⟩) ∧
    (effectivePriority privMask pubMask ≠ 0 →
      (effectivePriority privMask pubMask).testBit
        (ffsll (effectivePriority privMask pubMask) - 1) = true ∧
      (∀ j < ffsll (effectivePriority privMask pubMask) - 1,
        (effectivePriority privMask pubMask).testBit j = false) ∧
      (dispatchPriorityPhase wakeups mask privMask pubMask).privatePriorityMask =
        andNot64 (effectivePriority privMask pubMask)
          (1 <<< (ffsll (effectivePriority privMask pubMask) - 1)) ∧
      (dispatchPriorityPhase wakeups mask privMask pubMask).privatePriorityMask.testBit
        (ffsll (effectivePriority privMask pubMask) - 1) = false) ∧
    ((dispatchPriorityPhase wakeups mask privMask pubMask).switchTo =
      if effectivePriority privMask pubMask ≠ 0 ∧
          wakeups.getD (ffsll (effectivePriority privMask pubMask) - 1) UNOCCUPIED = 0 ∧
          Nat.testBit mask (ffsll (effectivePriority privMask pubMask) - 1) then
        some (ffsll (effectivePriority privMask pubMask) - 1)
      else none) := by
  set e := effectivePriority privMask pubMask with he
  have hee : e < 2 ^ 64 := by
    rw [he, effectivePriority]; split <;> assumption
  by_cases h0 : e = 0
  · have hcase : privMask = 0 ∧ pubMask = 0 ∨ privMask ≠ 0 ∧ privMask = 0 := by
      rw [he, effectivePriority] at h0
      by_cases hp : privMask = 0 <;> simp [hp] at h0 ⊢ <;> tauto
    have hpm : privMask = 0 ∧ pubMask = 0 := by tauto
    refine ⟨?_, ?_, ?_, ?_⟩ <;>
      simp [dispatchPriorityPhase, hpm.1, hpm.2, h0]
  · obtain ⟨hf0, hbit, hmin⟩ := ffsll_spec e h0 hee
    have hk64 : ffsll e - 1 < 64 := by
      by_contra hge
      have : e.testBit (ffsll e - 1) = false :=
        Nat.testBit_lt_two_pow
          (Nat.lt_of_lt_of_le hee (Nat.pow_le_pow_right (by omega) (by omega)))
      simp [this] at hbit
    have hphase : dispatchPriorityPhase wakeups mask privMask pubMask =
        (if wakeups.getD (ffsll e - 1) UNOCCUPIED = 0 ∧ Nat.testBit mask (ffsll e - 1) then
          ⟨some (ffsll e - 1), andNot64 e (1 <<< (ffsll e - 1)),
            if privMask = 0 then 0 else pubMask⟩
        else
          ⟨none, andNot64 e (1 <<< (ffsll e - 1)),
            if privMask = 0 then 0 else pubMask⟩) := by
      by_cases hp : privMask = 0
      · have hpubne : pubMask ≠ 0 := by
          rw [he, effectivePriority, if_pos hp] at h0; exact h0
        have hee' : e = pubMask := by rw [he, effectivePriority, if_pos hp]
        rw [hee'] at hf0 ⊢
        simp only [dispatchPriorityPhase, hp, if_pos rfl, ite_true, hpubne, if_pos,
          ne_eq, not_false_eq_true, and_complement_self_eq_zero pubMask hpub]
        simp [hf0, and_complement_self_eq_zero pubMask hpub, hpubne]
      · have hee' : e = privMask := by rw [he, effectivePriority, if_neg hp]
        rw [hee'] at hf0 ⊢
        simp only [dispatchPriorityPhase, hp]
        simp [hf0, hp]
    refine ⟨?_, fun hc => absurd hc (by simpa using h0), fun _ => ⟨hbit, hmin, ?_, ?_⟩, ?_⟩
    · rw [hphase]; split <;> rfl
    · rw [hphase]; split <;> rfl
    · rw [hphase]
      split <;> simpa using testBit_andNot64_self e (ffsll e - 1) hk64
    · rw [hphase]
      by_cases hcond : wakeups.getD (ffsll e - 1) UNOCCUPIED = 0 ∧
          mask.testBit (ffsll e - 1) = true
      · rw [if_pos hcond, if_pos (⟨h0, hcond.1, hcond.2⟩ :
          e ≠ 0 ∧ wakeups.getD (ffsll e - 1) UNOCCUPIED = 0 ∧
            mask.testBit (ffsll e - 1) = true)]
      · rw [if_neg hcond,
          if_neg (fun hh : e ≠ 0 ∧ wakeups.getD (ffsll e - 1) UNOCCUPIED = 0 ∧
            mask.testBit (ffsll e - 1) = true => hcond ⟨hh.2.1, hh.2.2⟩)]

theorem dispatch_priority_phase_spec_witness :
    (dispatchPriorityPhase [0, 0] 2 0 2).switchTo = some 1 ∧
    (dispatchPriorityPhase [0, 0] 2 0 2).privatePriorityMask = 0 ∧
    (dispatchPriorityPhase [0, 0] 2 0 2).publicPriorityMask = 0 := by
  have h := dispatch_priority_phase_spec [0, 0] 2 0 2 (by decide) (by decide)
  refine ⟨?_, ?_, ?_⟩
  · rw [h.2.2.2]
    decide
  · have := (h.2.2.1 (by decide)).2.2.1
    rw [this]
    decide
  · rw [h.1]
    decide

/-! ## Claim C2: the round-robin scan of `dispatch()` -/

/-- The body of `dispatch()`'s scan loop for one pass (`Arachne.cc` lines
402–439), on the mask already shifted to the current index: a zero mask
means the pass is over (wrap); an unoccupied low bit is skipped without
touching the context; an occupied slot is selected iff the sampled clock
has reached its wakeup. The fuel is the 64-bit word width. -/
def scanStep (wakeups : List Nat) (now : Nat) : Nat → Nat → Nat → Option Nat
  | 0, _, _ => none
  | fuel + 1, m, i =>
    if m = 0 then none
    else if m % 2 = 1 ∧ wakeups.getD i UNOCCUPIED ≤ now then some i
    else scanStep wakeups now fuel (m / 2) (i + 1)

/-- Spec-side predicate: slot `i` is occupied in `mask` and its wakeup
time has been reached by `now`. -/
def runnableSlot (wakeups : List Nat) (mask now i : Nat) : Bool :=
  mask.testBit i && decide (wakeups.getD i UNOCCUPIED ≤ now)

/-- Spec-side scan: the first index at or after `start` (among `count`
candidates) whose slot is occupied and due. Written from the spec's words
("the first slot whose `wakeupTimeInCycles ≤ now`, unoccupied bits
skipped"), for comparison with the code-derived `scanStep`. -/
def firstRunnableFrom (wakeups : List Nat) (mask now start count : Nat) : Option Nat :=
  (List.range' start count).find? (runnableSlot wakeups mask now)

/-- The full scan loop of `dispatch()`: run one pass from `start` against
the entry-sampled `mask` and clock `now`; on wrap, take the next reloaded
occupied mask and resampled clock from `reloads` (the values the repeated
atomic load and `rdtsc` would return), check the shutdown flag, and scan
again from index 0. Returns the selected slot and the clock sample it was
selected against; `none` models exiting to the kernel stack on shutdown or
a run longer than the supplied samples. -/
def dispatchScan (wakeups : List Nat) (shutdownF : Bool) :
    Nat → Nat → Nat → List (Nat × Nat) → Option (Nat × Nat)
  | mask, now, start, reloads =>
    match scanStep wakeups now 64 (mask >>> start) start with
    | some k => some (k, now)
    | none =>
      match reloads with
      | [] => none
      | (m, c) :: rest =>
        if shutdownF then none else dispatchScan wakeups shutdownF m c 0 rest

/-- Spec-side version of the scan loop, phrased with `firstRunnableFrom`:
each pass picks the first occupied-and-due slot from its start index, and a
wrap moves to the next reloaded mask and resampled clock. -/
def specDispatch (wakeups : List Nat) :
    Nat → Nat → Nat → List (Nat × Nat) → Option (Nat × Nat)
  | mask, now, start, reloads =>
    match firstRunnableFrom wakeups mask now start 64 with
    | some k => some (k, now)
    | none =>
      match reloads with
      | [] => none
      | (m, c) :: rest => specDispatch wakeups m c 0 rest

/-- The round-robin tail of `dispatch()`: after the scan selects slot `k`,
`nextCandidateIndex` becomes `k + 1`, reset to 0 when it reaches
`maxThreadsPerCore`, and the winner's wakeup word is set to `BLOCKED` —
directly when the winner is the already-loaded context, otherwise in the
resumed context right after `swapcontext` returns there. The returned
tuple is (winner, clock sample used, wakeup words after the switch, new
`nextCandidateIndex`). -/
def dispatchRoundRobin (wakeups : List Nat) (mask now start : Nat)
    (reloads : List (Nat × Nat)) : Option (Nat × Nat × List Nat × Nat) :=
  match dispatchScan wakeups false mask now start reloads with
  | none => none
  | some (k, nw) =>
    some (k, nw, wakeups.set k BLOCKED,
      if k + 1 = maxThreadsPerCore then 0 else k + 1)

theorem scanStep_eq_firstRunnable (wakeups : List Nat) (now : Nat) :
    ∀ (fuel start mask : Nat), mask >>> start < 2 ^ fuel →
      scanStep wakeups now fuel (mask >>> start) start =
        firstRunnableFrom wakeups mask now start fuel := by
  intro fuel
  induction fuel with
  | zero =>
    intro start mask hlt
    have h0 : mask >>> start = 0 := Nat.lt_one_iff.mp (by simpa using hlt)
    simp [scanStep, firstRunnableFrom, h0]
  | succ fuel ih =>
    intro start mask hlt
    have hshift : mask >>> start = mask / 2 ^ start := Nat.shiftRight_eq_div_pow mask start
    by_cases hzero : mask >>> start = 0
    · have hmasklt : mask < 2 ^ start := by
        rw [hshift] at hzero
        exact (Nat.div_eq_zero_iff (Nat.pos_pow_of_pos start (by omega))).mp hzero
      have hnone : firstRunnableFrom wakeups mask now start (fuel + 1) = none := by
        rw [firstRunnableFrom, List.find?_eq_none]
        intro j hj
        have hjs : start ≤ j := (List.mem_range'_1.mp hj).1
        have : mask.testBit j = false :=
          Nat.testBit_lt_two_pow
            (Nat.lt_of_lt_of_le hmasklt (Nat.pow_le_pow_right (by omega) hjs))
        simp [runnableSlot, this]
      rw [hnone, hzero]
      simp [scanStep]
    · have hbit : mask.testBit start = decide (mask >>> start % 2 = 1) := by
        rw [Nat.testBit_to_div_mod, hshift]
      have hcons : List.range' start (fuel + 1) = start :: List.range' (start + 1) fuel := by
        rw [List.range'_succ]
      by_cases hsel : mask >>> start % 2 = 1 ∧ wakeups.getD start UNOCCUPIED ≤ now
      · have hp : runnableSlot wakeups mask now start = true := by
          rw [runnableSlot, hbit, decide_eq_true hsel.1, decide_eq_true hsel.2,
            Bool.and_self]
        rw [firstRunnableFrom, hcons, List.find?_cons_of_pos _ hp]
        simp only [scanStep]
        rw [if_neg hzero]
        split
        · rfl
        · rename_i hcontra
          exact absurd ⟨hsel.1, hsel.2⟩ hcontra
      · have hp : runnableSlot wakeups mask now start = false := by
          rw [runnableSlot, hbit]
          rcases not_and_or.mp hsel with h1 | h2
          · rw [decide_eq_false h1, Bool.false_and]
          · rw [decide_eq_false h2, Bool.and_false]
        have hrec : mask >>> (start + 1) = (mask >>> start) / 2 :=
          Nat.shiftRight_succ mask start
        have hlt' : mask >>> (start + 1) < 2 ^ fuel := by
          rw [hrec]
          have : (2:Nat) ^ (fuel + 1) = 2 ^ fuel * 2 := by ring
          omega
        have ihs := ih (start + 1) mask hlt'
        rw [firstRunnableFrom, hcons, List.find?_cons_of_neg _ (by simp [hp])]
        simp only [scanStep]
        rw [if_neg hzero]
        split
        · rename_i hcontra
          exact absurd hcontra hsel
        · rw [← hrec, ihs, firstRunnableFrom]

theorem scanStep_some_due (wakeups : List Nat) (now : Nat) :
    ∀ (fuel m i k : Nat), scanStep wakeups now fuel m i = some k →
      wakeups.getD k UNOCCUPIED ≤ now := by
  intro fuel
  induction fuel with
  | zero => intro m i k h; simp [scanStep] at h
  | succ fuel ih =>
    intro m i k h
    by_cases hz : m = 0
    · simp [scanStep, hz] at h
    · by_cases hsel : m % 2 = 1 ∧ wakeups.getD i UNOCCUPIED ≤ now
      · have hstep : scanStep wakeups now (fuel + 1) m i = some i := by
          simp only [scanStep]
          rw [if_neg hz]
          split
          · rfl
          · rename_i hcontra
            exact absurd ⟨hsel.1, hsel.2⟩ hcontra
        rw [hstep] at h
        injection h with h'
        exact h' ▸ hsel.2
      · have hstep : scanStep wakeups now (fuel + 1) m i =
            scanStep wakeups now fuel (m / 2) (i + 1) := by
          simp only [scanStep]
          rw [if_neg hz]
          split
          · rename_i hcontra
            exact absurd hcontra hsel
          · rfl
        rw [hstep] at h
        exact ih (m / 2) (i + 1) k h

theorem dispatchScan_some_due (wakeups : List Nat) (shF : Bool) :
    ∀ (reloads : List (Nat × Nat)) (mask now start k nw : Nat),
      dispatchScan wakeups shF mask now start reloads = some (k, nw) →
      wakeups.getD k UNOCCUPIED ≤ nw := by
  intro reloads
  induction reloads with
  | nil =>
    intro mask now start k nw h
    rw [dispatchScan] at h
    cases hscan : scanStep wakeups now 64 (mask >>> start) start with
    | none => rw [hscan] at h; simp at h
    | some k' =>
      rw [hscan] at h
      simp only [Option.some.injEq, Prod.mk.injEq] at h
      exact h.2 ▸ h.1 ▸ scanStep_some_due wakeups now 64 _ _ k' hscan
  | cons p rest ih =>
    intro mask now start k nw h
    rw [dispatchScan] at h
    cases hscan : scanStep wakeups now 64 (mask >>> start) start with
    | none =>
      rw [hscan] at h
      obtain ⟨m, c⟩ := p
      cases shF with
      | true => simp at h
      | false =>
        simp only [Bool.false_eq_true, if_false] at h
        exact ih m c 0 k nw h
    | some k' =>
      rw [hscan] at h
      simp only [Option.some.injEq, Prod.mk.injEq] at h
      exact h.2 ▸ h.1 ▸ scanStep_some_due wakeups now 64 _ _ k' hscan

theorem shiftRight_le_self (m s : Nat) : m >>> s ≤ m := by
  rw [Nat.shiftRight_eq_div_pow]
  exact Nat.div_le_self m (2 ^ s)

theorem dispatchScan_eq_spec (wakeups : List Nat) :
    ∀ (reloads : List (Nat × Nat)) (mask now start : Nat), mask < 2 ^ 64 →
      (∀ p ∈ reloads, p.1 < 2 ^ 64) →
      dispatchScan wakeups false mask now start reloads =
        specDispatch wakeups mask now start reloads := by
  intro reloads
  induction reloads with
  | nil =>
    intro mask now start hm _
    rw [dispatchScan, specDispatch,
      scanStep_eq_firstRunnable wakeups now 64 start mask
        (Nat.lt_of_le_of_lt (shiftRight_le_self mask start) hm)]
  | cons p rest ih =>
    intro mask now start hm hr
    obtain ⟨m, c⟩ := p
    rw [dispatchScan, specDispatch,
      scanStep_eq_firstRunnable wakeups now 64 start mask
        (Nat.lt_of_le_of_lt (shiftRight_le_self mask start) hm)]
    cases firstRunnableFrom wakeups mask now start 64 with
    | some k => rfl
    | none =>
      simp only [Bool.false_eq_true, if_false]
      exact ih m c 0 (hr (m, c) (List.mem_cons_self _ _))
        (fun q hq => hr q (List.mem_cons_of_mem _ hq))

theorem dispatchScan_some_lt (wakeups : List Nat) :
    ∀ (reloads : List (Nat × Nat)) (mask now start k nw : Nat), mask < 2 ^ 56 →
      (∀ p ∈ reloads, p.1 < 2 ^ 56) →
      dispatchScan wakeups false mask now start reloads = some (k, nw) →
      k < maxThreadsPerCore := by
  have keybit : ∀ (mask now start k : Nat), mask < 2 ^ 56 →
      firstRunnableFrom wakeups mask now start 64 = some k → k < maxThreadsPerCore := by
    intro mask now start k hm hfind
    have hp := List.find?_some hfind
    have hbit : mask.testBit k = true := by
      simp only [runnableSlot, Bool.and_eq_true] at hp
      exact hp.1
    by_contra hge
    have : mask.testBit k = false :=
      Nat.testBit_lt_two_pow
        (Nat.lt_of_lt_of_le hm (Nat.pow_le_pow_right (by omega) (by
          simp [maxThreadsPerCore] at hge; omega)))
    simp [this] at hbit
  intro reloads
  induction reloads with
  | nil =>
    intro mask now start k nw hm _ h
    rw [dispatchScan, scanStep_eq_firstRunnable wakeups now 64 start mask
      (Nat.lt_of_le_of_lt (shiftRight_le_self mask start)
        (Nat.lt_of_lt_of_le hm (Nat.pow_le_pow_right (by omega) (by omega))))] at h
    cases hfind : firstRunnableFrom wakeups mask now start 64 with
    | none => rw [hfind] at h; simp at h
    | some k' =>
      rw [hfind] at h
      simp only [Option.some.injEq, Prod.mk.injEq] at h
      exact h.1 ▸ keybit mask now start k' hm hfind
  | cons p rest ih =>
    intro mask now start k nw hm hr h
    obtain ⟨m, c⟩ := p
    rw [dispatchScan, scanStep_eq_firstRunnable wakeups now 64 start mask
      (Nat.lt_of_le_of_lt (shiftRight_le_self mask start)
        (Nat.lt_of_lt_of_le hm (Nat.pow_le_pow_right (by omega) (by omega))))] at h
    cases hfind : firstRunnableFrom wakeups mask now start 64 with
    | none =>
      rw [hfind] at h
      simp only [Bool.false_eq_true, if_false] at h
      exact ih m c 0 k nw (hr (m, c) (List.mem_cons_self _ _))
        (fun q hq => hr q (List.mem_cons_of_mem _ hq)) h
    | some k' =>
      rw [hfind] at h
      simp only [Option.some.injEq, Prod.mk.injEq] at h
      exact h.1 ▸ keybit mask now start k' hm hfind

/-- Claim C2: the round-robin phase of `dispatch()` switches to the first
occupied slot — scanning from `nextCandidateIndex`, skipping unoccupied
bits — whose `wakeupTimeInCycles` is at most the sampled clock; on each
wrap the occupied mask is reloaded and the clock resampled; after
selecting slot `k`, `nextCandidateIndex` becomes `(k+1) mod
maxThreadsPerCore`; and the winner's wakeup word ends up `BLOCKED` (set in
the resumed context after the switch, or directly for the loaded
context). -/
theorem dispatch_round_robin_spec (wakeups : List Nat) (mask now start : Nat)
    (reloads : List (Nat × Nat)) (hm : mask < 2 ^ 56)
    (hr : ∀ p ∈ reloads, p.1 < 2 ^ 56) :
    dispatchScan wakeups false mask now start reloads =
      specDispatch wakeups mask now start reloads ∧
    (∀ k nw, dispatchScan wakeups false mask now start reloads = some (k, nw) →
      k < maxThreadsPerCore ∧
      wakeups.getD k UNOCCUPIED ≤ nw ∧
      dispatchRoundRobin wakeups mask now start reloads =
        some (k, nw, wakeups.set k BLOCKED, (k + 1) % maxThreadsPerCore)) := by
  have hpow : (2:Nat) ^ 56 ≤ 2 ^ 64 := Nat.pow_le_pow_right (by omega) (by omega)
  refine ⟨dispatchScan_eq_spec wakeups reloads mask now start
    (Nat.lt_of_lt_of_le hm hpow)
    (fun p hp => Nat.lt_of_lt_of_le (hr p hp) hpow), ?_⟩
  intro k nw h
  have hk : k < maxThreadsPerCore :=
    dispatchScan_some_lt wakeups reloads mask now start k nw hm hr h
  refine ⟨hk, dispatchScan_some_due wakeups false reloads mask now start k nw h, ?_⟩
  have hmod : (if k + 1 = maxThreadsPerCore then 0 else k + 1) =
      (k + 1) % maxThreadsPerCore := by
    by_cases he : k + 1 = maxThreadsPerCore
    · simp [he]
    · rw [if_neg he, Nat.mod_eq_of_lt]
      simp only [maxThreadsPerCore] at hk he ⊢
      omega
  rw [dispatchRoundRobin, h]
  show some (k, nw, wakeups.set k BLOCKED,
    if k + 1 = maxThreadsPerCore then 0 else k + 1) = _
  rw [hmod]

theorem dispatch_round_robin_spec_witness :
    dispatchRoundRobin [BLOCKED, 5, 0] 6 4 2 [] = some (2, 4, [BLOCKED, 5, BLOCKED], 3) ∧
    (2 + 1) % maxThreadsPerCore = 3 := by
  have h := dispatch_round_robin_spec [BLOCKED, 5, 0] 6 4 2 []
    (by decide) (by intro p hp; simp at hp)
  have hscan : dispatchScan [BLOCKED, 5, 0] false 6 4 2 [] = some (2, 4) := by decide
  have := (h.2 2 4 hscan).2.2
  constructor
  · rw [this]; decide
  · decide

/-! ## Claim C5: `sleep` never wakes early -/

/-- `sleep(ns)`: store the current cycle count plus the cycle equivalent of
`ns` nanoseconds into the calling slot's wakeup word (a `uint64_t` sum) and
enter `dispatch()`. `fromNanoseconds` stands for the external
`Cycles::fromNanoseconds` conversion, kept abstract. -/
def sleep (wakeups : List Nat) (slot now ns : Nat)
    (fromNanoseconds : Nat → Nat) : List Nat :=
  wakeups.set slot ((now + fromNanoseconds ns) % 2 ^ 64)

theorem dispatchPriorityPhase_switchTo (w : List Nat) (mask p q : Nat) :
    (dispatchPriorityPhase w mask p q).switchTo =
      (if (if p = 0 then q else p) ≠ 0 ∧ ffsll (if p = 0 then q else p) ≠ 0 ∧
          w.getD (ffsll (if p = 0 then q else p) - 1) UNOCCUPIED = 0 ∧
          mask.testBit (ffsll (if p = 0 then q else p) - 1) = true
       then some (ffsll (if p = 0 then q else p) - 1) else none) := by
  by_cases hp0 : p = 0 <;> by_cases hq0 : q = 0 <;>
    by_cases hff : ffsll (if p = 0 then q else p) = 0 <;>
    simp_all [dispatchPriorityPhase] <;>
    split <;> simp_all

theorem dispatchPriorityPhase_switch_wakeup_zero (w : List Nat) (mask p q k : Nat)
    (h : (dispatchPriorityPhase w mask p q).switchTo = some k) :
    w.getD k UNOCCUPIED = 0 := by
  rw [dispatchPriorityPhase_switchTo] at h
  split at h
  · split at h
    · rename_i hc
      injection h with h'
      exact h' ▸ hc.2.2.1
    · simp at h
  · split at h
    · rename_i hc
      injection h with h'
      exact h' ▸ hc.2.2.1
    · simp at h

/-- Claim C5: `sleep(ns)` sets the caller's wakeup word to the current
cycle count plus `cyclesFromNanos(ns)` and enters `dispatch()`; and
`dispatch` resumes a slot — on the round-robin path or the priority path —
only once the sampled clock has reached the slot's wakeup value, so
`sleep` cannot return before the wakeup cycle (hence not before `ns`
nanoseconds on the same counter). -/
theorem sleep_never_wakes_early (wakeups : List Nat) (slot now0 ns : Nat)
    (fromNanoseconds : Nat → Nat)
    (hslot : slot < wakeups.length)
    (hnoof : now0 + fromNanoseconds ns < 2 ^ 64) :
    (sleep wakeups slot now0 ns fromNanoseconds).getD slot UNOCCUPIED =
      now0 + fromNanoseconds ns ∧
    (∀ (shF : Bool) (mask now start nw : Nat) (reloads : List (Nat × Nat)),
      dispatchScan (sleep wakeups slot now0 ns fromNanoseconds) shF
          mask now start reloads = some (slot, nw) →
      now0 + fromNanoseconds ns ≤ nw) ∧
    (∀ (mask privMask pubMask : Nat),
      (dispatchPriorityPhase (sleep wakeups slot now0 ns fromNanoseconds)
          mask privMask pubMask).switchTo = some slot →
      now0 + fromNanoseconds ns = 0) := by
  have hget : (sleep wakeups slot now0 ns fromNanoseconds).getD slot UNOCCUPIED =
      now0 + fromNanoseconds ns := by
    rw [sleep, List.getD_eq_getElem?_getD, List.getElem?_set_self hslot]
    simp only [Option.getD_some]
    exact Nat.mod_eq_of_lt hnoof
  refine ⟨hget, ?_, ?_⟩
  · intro shF mask now start nw reloads h
    have := dispatchScan_some_due (sleep wakeups slot now0 ns fromNanoseconds)
      shF reloads mask now start slot nw h
    rwa [hget] at this
  · intro mask privMask pubMask h
    have := dispatchPriorityPhase_switch_wakeup_zero
      (sleep wakeups slot now0 ns fromNanoseconds) mask privMask pubMask slot h
    rwa [hget] at this

theorem sleep_never_wakes_early_witness :
    (sleep [BLOCKED, BLOCKED] 0 100 7 (fun n => 3 * n)).getD 0 UNOCCUPIED = 121 ∧
    (dispatchScan (sleep [BLOCKED, BLOCKED] 0 100 7 (fun n => 3 * n))
        false 1 130 0 [] = some (0, 130)) ∧ 121 ≤ 130 := by
  have h := sleep_never_wakes_early [BLOCKED, BLOCKED] 0 100 7 (fun n => 3 * n)
    (by decide) (by decide)
  refine ⟨h.1, by decide, ?_⟩
  exact h.2.1 false 1 130 0 130 [] (by decide)

/-! ## Claim C3: `popcount(occupied) == numOccupied` -/

/-- Number of set bits of a 64-bit word. -/
def popcount (n : Nat) : Nat :=
  ((Finset.range 64).filter (fun i => n.testBit i = true)).card

/-- The per-core packed occupancy word: a 56-bit `occupied` bitmap
co-packed with an 8-bit `numOccupied` count. -/
structure MaskAndCount where
  occupied : Nat
  numOccupied : Nat
deriving DecidableEq

/-- The invariant the two co-packed fields must maintain. -/
def maskAndCountInvariant (m : MaskAndCount) : Prop :=
  popcount m.occupied = m.numOccupied

instance (m : MaskAndCount) : Decidable (maskAndCountInvariant m) :=
  inferInstanceAs (Decidable (popcount m.occupied = m.numOccupied))

/-- The new word installed by the slot-reclaim CAS of `schedulerMainLoop`
(`Arachne.cc` lines 284–296): `numOccupied--` (an 8-bit bitfield, hence
mod 256) and `occupied &= ~(1L << idInCore) & 0x00FFFFFFFFFFFFFF`. -/
def clearOccupied (m : MaskAndCount) (idInCore : Nat) : MaskAndCount :=
  { numOccupied := (m.numOccupied + 255) % 256
    occupied := m.occupied &&& (((2 ^ 64 - 1) ^^^ (1 <<< idInCore)) &&& (2 ^ 56 - 1)) }

/-- `lowestZeroBit` with the 64-bit width as structural fuel. -/
def lowestZeroBitAux : Nat → Nat → Nat
  | 0, _ => 0
  | fuel + 1, n => if n % 2 = 0 then 0 else lowestZeroBitAux fuel (n / 2) + 1

/-- The index of the lowest zero bit of a 64-bit word. -/
def lowestZeroBit (n : Nat) : Nat := lowestZeroBitAux 64 n

/-- Modelled from the spec: `createThread`'s slot reservation (the CAS
loop lives in `Arachne.h`, which is not among the available sources).
Per the allocation contract: fail if `numOccupied == slotsPerCore`,
otherwise build the new word with the lowest zero bit of `occupied` set
and `numOccupied + 1` (the count being an 8-bit bitfield). -/
def reserveSlot (m : MaskAndCount) : Option MaskAndCount :=
  if m.numOccupied = maxThreadsPerCore then none
  else
    some { occupied := m.occupied ||| (1 <<< lowestZeroBit m.occupied)
           numOccupied := (m.numOccupied + 1) % 256 }

theorem testBit_clearOccupied (o id i : Nat) (ho : o < 2 ^ 56) (_hid : id < 56) :
    (o &&& (((2 ^ 64 - 1) ^^^ (1 <<< id)) &&& (2 ^ 56 - 1))).testBit i =
      (o.testBit i && !(decide (id = i))) := by
  rw [Nat.testBit_and, Nat.testBit_and, Nat.testBit_xor, Nat.shiftLeft_eq, one_mul,
    Nat.testBit_two_pow, Nat.testBit_two_pow_sub_one, Nat.testBit_two_pow_sub_one]
  by_cases hi : i < 56
  · have hi64 : i < 64 := by omega
    simp [hi, hi64]
  · have hob : o.testBit i = false :=
      Nat.testBit_lt_two_pow
        (Nat.lt_of_lt_of_le ho (Nat.pow_le_pow_right (by omega) (by omega)))
    simp [hi, hob]

theorem popcount_clear (o id : Nat) (ho : o < 2 ^ 56) (hid : id < 56)
    (hbit : o.testBit id = true) :
    popcount (o &&& (((2 ^ 64 - 1) ^^^ (1 <<< id)) &&& (2 ^ 56 - 1))) =
      popcount o - 1 := by
  have hset : (Finset.range 64).filter
      (fun i => (o &&& (((2 ^ 64 - 1) ^^^ (1 <<< id)) &&& (2 ^ 56 - 1))).testBit i = true) =
      ((Finset.range 64).filter (fun i => o.testBit i = true)).erase id := by
    ext i
    simp only [Finset.mem_filter, Finset.mem_erase, Finset.mem_range,
      testBit_clearOccupied o id i ho hid, Bool.and_eq_true, Bool.not_eq_true',
      decide_eq_false_iff_not]
    constructor
    · rintro ⟨hi, hb, hne⟩
      exact ⟨fun he => hne he.symm, hi, hb⟩
    · rintro ⟨hne, hi, hb⟩
      exact ⟨hi, hb, fun he => hne he.symm⟩
  rw [popcount, popcount, hset, Finset.card_erase_of_mem]
  exact Finset.mem_filter.mpr ⟨Finset.mem_range.mpr (by omega), hbit⟩

theorem popcount_set (o k : Nat) (hk : k < 64) (hbit : o.testBit k = false) :
    popcount (o ||| (1 <<< k)) = popcount o + 1 := by
  have hset : (Finset.range 64).filter (fun i => (o ||| (1 <<< k)).testBit i = true) =
      insert k ((Finset.range 64).filter (fun i => o.testBit i = true)) := by
    ext i
    simp only [Finset.mem_filter, Finset.mem_insert, Finset.mem_range, Nat.testBit_or,
      Nat.shiftLeft_eq, one_mul, Nat.testBit_two_pow, Bool.or_eq_true,
      decide_eq_true_eq]
    constructor
    · rintro ⟨hi, hb | he⟩
      · exact Or.inr ⟨hi, hb⟩
      · exact Or.inl he.symm
    · rintro (rfl | ⟨hi, hb⟩)
      · exact ⟨hk, Or.inr rfl⟩
      · exact ⟨hi, Or.inl hb⟩
  rw [popcount, popcount, hset, Finset.card_insert_of_not_mem]
  intro hmem
  rw [Finset.mem_filter] at hmem
  rw [hmem.2] at hbit
  exact Bool.noConfusion hbit

theorem popcount_le (o : Nat) : popcount o ≤ 64 := by
  calc popcount o ≤ (Finset.range 64).card := Finset.card_filter_le _ _
  _ = 64 := Finset.card_range 64

theorem lowestZeroBitAux_spec (c : Nat) :
    ∀ (fuel n : Nat), c ≤ fuel → n < 2 ^ c →
      n.testBit (lowestZeroBitAux fuel n) = false ∧ lowestZeroBitAux fuel n ≤ c := by
  induction c with
  | zero =>
    intro fuel n _ hlt
    have hn : n = 0 := by omega
    subst hn
    have hz : lowestZeroBitAux fuel 0 = 0 := by
      cases fuel <;> simp [lowestZeroBitAux]
    rw [hz]
    exact ⟨Nat.zero_testBit 0, Nat.le_refl 0⟩
  | succ c ih =>
    intro fuel n hcf hlt
    obtain ⟨f, rfl⟩ : ∃ f, fuel = f + 1 := ⟨fuel - 1, by omega⟩
    by_cases hpar : n % 2 = 0
    · have hz : lowestZeroBitAux (f + 1) n = 0 := by
        simp [lowestZeroBitAux, hpar]
      rw [hz]
      refine ⟨?_, by omega⟩
      rw [Nat.testBit_zero]
      simp
      omega
    · have hstep : lowestZeroBitAux (f + 1) n = lowestZeroBitAux f (n / 2) + 1 := by
        simp [lowestZeroBitAux, hpar]
      have hhlt : n / 2 < 2 ^ c := by
        have hp2 : (2:Nat) ^ (c + 1) = 2 ^ c * 2 := by ring
        omega
      obtain ⟨hb, hle⟩ := ih f (n / 2) (by omega) hhlt
      rw [hstep]
      refine ⟨?_, by omega⟩
      rw [Nat.testBit_add_one]
      exact hb

/-- Claim C3: `popcount(occupied) == numOccupied` holds for the zeroed
word written at `init`, and is preserved by both single-CAS updates: the
exit path's clear of a set bit together with `numOccupied--`, and the
(spec-modelled) creation path's set of the lowest zero bit together with
`numOccupied++`. -/
theorem maskAndCount_popcount_invariant :
    maskAndCountInvariant ⟨0, 0⟩ ∧
    (∀ (m : MaskAndCount) (id : Nat),
      maskAndCountInvariant m → m.occupied < 2 ^ 56 → id < maxThreadsPerCore →
      m.occupied.testBit id = true →
      maskAndCountInvariant (clearOccupied m id)) ∧
    (∀ (m m' : MaskAndCount),
      maskAndCountInvariant m → m.occupied < 2 ^ 56 →
      reserveSlot m = some m' → maskAndCountInvariant m') := by
  refine ⟨by decide, ?_, ?_⟩
  · intro m id hinv ho hid hbit
    have hid56 : id < 56 := by simpa [maxThreadsPerCore] using hid
    have hpc := popcount_clear m.occupied id ho hid56 hbit
    have hpos : 1 ≤ popcount m.occupied := by
      have : id ∈ (Finset.range 64).filter (fun i => m.occupied.testBit i = true) :=
        Finset.mem_filter.mpr ⟨Finset.mem_range.mpr (by omega), hbit⟩
      have := Finset.card_pos.mpr ⟨id, this⟩
      simpa [popcount] using this
    have hle := popcount_le m.occupied
    rw [maskAndCountInvariant] at hinv ⊢
    rw [clearOccupied] at *
    simp only at hpc ⊢
    rw [hpc, hinv]
    omega
  · intro m m' hinv ho hres
    rw [reserveSlot] at hres
    by_cases hfull : m.numOccupied = maxThreadsPerCore
    · rw [if_pos hfull] at hres
      exact absurd hres (by simp)
    · rw [if_neg hfull] at hres
      injection hres with hres
      obtain ⟨hzb, hzle⟩ := lowestZeroBitAux_spec 56 64 m.occupied (by omega) ho
      have hk64 : lowestZeroBit m.occupied < 64 := by
        rw [lowestZeroBit]
        omega
      have hpc := popcount_set m.occupied (lowestZeroBit m.occupied) hk64 hzb
      have hle := popcount_le m.occupied
      rw [maskAndCountInvariant] at hinv ⊢
      rw [← hres]
      simp only
      rw [hpc, hinv]
      have hnum : m.numOccupied ≤ 64 := hinv ▸ hle
      omega

theorem maskAndCount_popcount_invariant_witness :
    maskAndCountInvariant (⟨3, 2⟩ : MaskAndCount) ∧
    maskAndCountInvariant (clearOccupied ⟨3, 2⟩ 0) ∧
    reserveSlot ⟨3, 2⟩ = some ⟨7, 3⟩ ∧
    maskAndCountInvariant (⟨7, 3⟩ : MaskAndCount) := by
  refine ⟨by decide, ?_, by decide, ?_⟩
  · exact maskAndCount_popcount_invariant.2.1 ⟨3, 2⟩ 0
      (by decide) (by decide) (by decide) (by decide)
  · exact maskAndCount_popcount_invariant.2.2 ⟨3, 2⟩ ⟨7, 3⟩
      (by decide) (by decide) (by decide)

/-! ## Claim C8: `CoreLoadEstimator::estimate` -/

/-- 64-bit subtraction `a - b` (two's complement wraparound). -/
def sub64 (a b : Nat) : Nat := (a + 2 ^ 64 - b % 2 ^ 64) % 2 ^ 64

/-- The aggregate performance counters `estimate` consumes. All fields are
64-bit; `collectionTime` is a monotonic nanosecond timestamp, zero meaning
"no sample recorded yet". -/
structure PerfStats where
  collectionTime : Nat
  idleCycles : Nat
  totalCycles : Nat
  weightedLoadedCycles : Nat
  numThreadsCreated : Nat
  numThreadsFinished : Nat
deriving DecidableEq

/-- The estimator's state: the stats sample primed on the first call, the
per-core-count utilization `thresholds` array, and the configured bound
and thresholds (their values live in `CoreLoadEstimator.h`, which is not
among the available sources, so they are carried as fields). `double`
arithmetic is modelled by exact rationals. -/
structure CoreLoadEstimator where
  previousStats : PerfStats
  utilizationThresholds : List ℚ
  maxNumCores : Nat
  loadFactorThreshold : ℚ
  idleCoreFractionHysteresis : ℚ
  slotOccupancyThreshold : ℚ
deriving DecidableEq

/-- `CoreLoadEstimator::estimate(curActiveCores)`: on the first call
(previous `collectionTime` is 0) collect a baseline and return 0 (hold).
Otherwise compute the deltas since the baseline and return 1 (grow),
recording the current total utilized cores at index `curActiveCores` of
the thresholds array, when the core count can still grow and the average
load factor exceeds `loadFactorThreshold`; return −1 (shrink) when total
utilized cores has fallen below the recorded threshold minus the
hysteresis band and slot occupancy is below `slotOccupancyThreshold`; and
return 0 otherwise. `fromNanoseconds` stands for the external
`Cycles::fromNanoseconds`. -/
def estimate (e : CoreLoadEstimator) (fromNanoseconds : Nat → Nat)
    (currentStats : PerfStats) (curActiveCores : Nat) : Int × CoreLoadEstimator :=
  if e.previousStats.collectionTime = 0 then
    (0, { e with previousStats := currentStats })
  else
    let idleCycles := sub64 currentStats.idleCycles e.previousStats.idleCycles
    let totalCycles := sub64 currentStats.totalCycles e.previousStats.totalCycles
    let utilizedCycles := sub64 totalCycles idleCycles
    let totalMeasurementCycles :=
      fromNanoseconds (sub64 currentStats.collectionTime e.previousStats.collectionTime)
    let totalUtilizedCores : ℚ := (utilizedCycles : ℚ) / (totalMeasurementCycles : ℚ)
    let weightedLoadedCycles :=
      sub64 currentStats.weightedLoadedCycles e.previousStats.weightedLoadedCycles
    let averageLoadFactor : ℚ := (weightedLoadedCycles : ℚ) / (totalCycles : ℚ)
    if curActiveCores < e.maxNumCores ∧ averageLoadFactor > e.loadFactorThreshold then
      (1, { e with utilizationThresholds :=
              e.utilizationThresholds.set curActiveCores totalUtilizedCores })
    else
      let averageNumSlotsUsed : ℚ :=
        ((sub64 currentStats.numThreadsCreated currentStats.numThreadsFinished : ℚ) /
          (curActiveCores : ℚ)) / (maxThreadsPerCore : ℚ)
      if totalUtilizedCores <
          e.utilizationThresholds.getD (curActiveCores - 1) 0 -
            e.idleCoreFractionHysteresis ∧
          averageNumSlotsUsed < e.slotOccupancyThreshold then
        (-1, e)
      else (0, e)

/-- Spec-side formula: `averageLoadFactor = Δweightedloaded / Δtotal`. -/
def averageLoadFactorOf (e : CoreLoadEstimator) (cur : PerfStats) : ℚ :=
  (sub64 cur.weightedLoadedCycles e.previousStats.weightedLoadedCycles : ℚ) /
    (sub64 cur.totalCycles e.previousStats.totalCycles : ℚ)

/-- Spec-side formula: `totalUtilizedCores = Δutilized / Δelapsed`, the
elapsed wall-clock converted to cycles. -/
def totalUtilizedCoresOf (e : CoreLoadEstimator) (fromNanoseconds : Nat → Nat)
    (cur : PerfStats) : ℚ :=
  (sub64 (sub64 cur.totalCycles e.previousStats.totalCycles)
      (sub64 cur.idleCycles e.previousStats.idleCycles) : ℚ) /
    (fromNanoseconds (sub64 cur.collectionTime e.previousStats.collectionTime) : ℚ)

/-- Spec-side formula: the average fraction of thread slots in use. -/
def averageNumSlotsUsedOf (cur : PerfStats) (curActiveCores : Nat) : ℚ :=
  ((sub64 cur.numThreadsCreated cur.numThreadsFinished : ℚ) /
    (curActiveCores : ℚ)) / (maxThreadsPerCore : ℚ)

/-- Spec-side grow condition. -/
def growCondition (e : CoreLoadEstimator) (cur : PerfStats)
    (curActiveCores : Nat) : Prop :=
  curActiveCores < e.maxNumCores ∧ averageLoadFactorOf e cur > e.loadFactorThreshold

/-- Spec-side shrink condition (evaluated only when not growing). -/
def shrinkCondition (e : CoreLoadEstimator) (fromNanoseconds : Nat → Nat)
    (cur : PerfStats) (curActiveCores : Nat) : Prop :=
  totalUtilizedCoresOf e fromNanoseconds cur <
      e.utilizationThresholds.getD (curActiveCores - 1) 0 -
        e.idleCoreFractionHysteresis ∧
    averageNumSlotsUsedOf cur curActiveCores < e.slotOccupancyThreshold

instance (e : CoreLoadEstimator) (cur : PerfStats) (c : Nat) :
    Decidable (growCondition e cur c) :=
  inferInstanceAs (Decidable (_ ∧ _))

instance (e : CoreLoadEstimator) (f : Nat → Nat) (cur : PerfStats) (c : Nat) :
    Decidable (shrinkCondition e f cur c) :=
  inferInstanceAs (Decidable (_ ∧ _))

/-- Claim C8: `estimate` returns 0 on its first call while priming the
baseline; on later calls it returns +1 exactly when the core count can
grow and the average load factor exceeds `loadFactorThreshold` (recording
the current total utilized cores at index `curActiveCores`), −1 exactly
when not growing, total utilized cores is below
`thresholds[curActiveCores−1] − idleCoreFractionHysteresis`, and slot
occupancy is below `slotOccupancyThreshold`; and 0 otherwise. -/
theorem estimate_spec (e : CoreLoadEstimator) (fromNanoseconds : Nat → Nat)
    (cur : PerfStats) (curActiveCores : Nat) :
    (e.previousStats.collectionTime = 0 →
      estimate e fromNanoseconds cur curActiveCores =
        (0, { e with previousStats := cur })) ∧
    (e.previousStats.collectionTime ≠ 0 →
      ((estimate e fromNanoseconds cur curActiveCores).1 = 1 ↔
        growCondition e cur curActiveCores) ∧
      (growCondition e cur curActiveCores →
        (estimate e fromNanoseconds cur curActiveCores).2.utilizationThresholds =
          e.utilizationThresholds.set curActiveCores
            (totalUtilizedCoresOf e fromNanoseconds cur)) ∧
      ((estimate e fromNanoseconds cur curActiveCores).1 = -1 ↔
        ¬growCondition e cur curActiveCores ∧
          shrinkCondition e fromNanoseconds cur curActiveCores) ∧
      ((estimate e fromNanoseconds cur curActiveCores).1 = 0 ↔
        ¬growCondition e cur curActiveCores ∧
          ¬shrinkCondition e fromNanoseconds cur curActiveCores) ∧
      (¬growCondition e cur curActiveCores →
        (estimate e fromNanoseconds cur curActiveCores).2 = e)) := by
  constructor
  · intro h0
    rw [estimate, if_pos h0]
  · intro hne
    have hunfold : estimate e fromNanoseconds cur curActiveCores =
        (if growCondition e cur curActiveCores then
          ((1 : Int), { e with utilizationThresholds := e.utilizationThresholds.set curActiveCores (totalUtilizedCoresOf e fromNanoseconds cur) })
        else if shrinkCondition e fromNanoseconds cur curActiveCores then
          ((-1 : Int), e)
        else ((0 : Int), e)) := by
      rw [estimate, if_neg hne]
      rfl
    rw [hunfold]
    by_cases hg : growCondition e cur curActiveCores
    · rw [if_pos hg]
      refine ⟨by simp [hg], fun _ => rfl, by simp [hg], by simp [hg], fun hng => absurd hg hng⟩
    · rw [if_neg hg]
      by_cases hs : shrinkCondition e fromNanoseconds cur curActiveCores
      · rw [if_pos hs]
        exact ⟨by simp [hg], fun hgc => absurd hgc hg, by simp [hg, hs],
          by simp [hg, hs], fun _ => rfl⟩
      · rw [if_neg hs]
        exact ⟨by simp [hg], fun hgc => absurd hgc hg, by simp [hg, hs],
          by simp [hg, hs], fun _ => rfl⟩

/-- A concrete estimator state for evaluating `estimate`: baseline already
primed, thresholds array of two entries, room to grow. -/
def exEstimator : CoreLoadEstimator :=
  { previousStats := ⟨1, 0, 0, 0, 0, 0⟩
    utilizationThresholds := [0, 0]
    maxNumCores := 4
    loadFactorThreshold := 1
    idleCoreFractionHysteresis := 0
    slotOccupancyThreshold := 0 }

/-- A concrete later sample: 12 total cycles, 2 idle, 30 weighted-loaded,
collected 2 ns after the baseline. -/
def exStats : PerfStats := ⟨3, 2, 12, 30, 5, 5⟩

theorem estimate_spec_witness :
    (estimate exEstimator (fun n => n) exStats 1).1 = 1 ∧
    (estimate exEstimator (fun n => n) exStats 1).2.utilizationThresholds = [0, 5] := by
  have h := estimate_spec exEstimator (fun n => n) exStats 1
  have hgrow : growCondition exEstimator exStats 1 := by
    refine ⟨by decide, ?_⟩
    norm_num [averageLoadFactorOf, exEstimator, exStats, sub64]
  constructor
  · exact ((h.2 (by decide)).1).mpr hgrow
  · have hth := (h.2 (by decide)).2.1 hgrow
    rw [hth]
    norm_num [totalUtilizedCoresOf, exEstimator, exStats, sub64]

/-! ## Claim C9: command-line option parsing (`parseOptions`) -/

/-- C `isspace` on the default locale. -/
def isSpaceC (c : Char) : Bool :=
  c = ' ' || c = '\t' || c = '\n' || c = '\x0B' || c = '\x0C' || c = '\r'

/-- ASCII digit test. -/
def isDigitC (c : Char) : Bool := '0' ≤ c && c ≤ '9'

/-- The digit-consuming loop of `atoi`. -/
def atoiDigits : List Char → Nat → Nat
  | [], acc => acc
  | c :: rest, acc =>
    if isDigitC c then atoiDigits rest (acc * 10 + (c.toNat - '0'.toNat)) else acc

/-- `atoi`: skip leading whitespace, optional sign, leading digits (0 when
none). Overflow is undefined behaviour in C and is not modelled. -/
def atoiModel (s : List Char) : Int :=
  match s.dropWhile isSpaceC with
  | '-' :: rest => -(atoiDigits rest 0 : Int)
  | '+' :: rest => (atoiDigits rest 0 : Int)
  | s1 => (atoiDigits s1 0 : Int)

/-- The three option values `parseOptions` can set: `numCores` and
`maxNumCores` are `uint32_t` (stores truncate mod `2^32`), `stackSize` is
an `int`. -/
structure ArachneOptions where
  numCores : Nat
  maxNumCores : Nat
  stackSize : Int
deriving DecidableEq

/-- The `optionSpecifiers` table: option name and id; all three take an
argument. -/
def optionSpecifiers : List (List Char × Char) :=
  [(['n','u','m','C','o','r','e','s'], 'c'),
   (['m','a','x','N','u','m','C','o','r','e','s'], 'm'),
   (['s','t','a','c','k','S','i','z','e'], 's')]

/-- The inner specifier loop: the first table entry whose name matches by
`strncmp(candidateName, optionName, strlen(candidateName)) == 0`, i.e.
whose name is a PREFIX of the option's name. -/
def findSpecifier (optionName : List Char) : Option (List Char × Char) :=
  optionSpecifiers.find? (fun sp => sp.1.isPrefixOf optionName)

/-- The leading-dashes test (`argv[i][0] == '-' && argv[i][1] == '-'`);
on success yields `optionName = argv[i] + 2`. -/
def parseToken (a : List Char) : Option (List Char) :=
  match a with
  | '-' :: '-' :: optionName => some optionName
  | _ => none

/-- The `switch (optionId)` of `parseOptions`. -/
def applyOption (id : Char) (arg : List Char) (st : ArachneOptions) : ArachneOptions :=
  if id = 'c' then { st with numCores := ((atoiModel arg).emod (2 ^ 32)).toNat }
  else if id = 'm' then { st with maxNumCores := ((atoiModel arg).emod (2 ^ 32)).toNat }
  else if id = 's' then { st with stackSize := atoiModel arg }
  else st

/-- The `while (i < argc)` loop of `parseOptions`: tokens not starting
with `--` are skipped; a recognized (by prefix) option with a following
argument is consumed — the `memmove` plus `argc -= 2` remove entries `i`
and `i+1` and the loop re-examines index `i`; a recognized option with no
following argument appends a missing-argument message (the specifier
name) to the error output and is skipped, unconsumed; an unrecognized
`--` token is skipped. The fuel `argv.length` bounds the iteration count
since every step removes two entries or advances `i`. -/
def parseLoop : Nat → List (List Char) → Nat → ArachneOptions → List (List Char) →
    List (List Char) × ArachneOptions × List (List Char)
  | 0, argv, _, st, errs => (argv, st, errs)
  | fuel + 1, argv, i, st, errs =>
    if h : i < argv.length then
      match parseToken (argv.get ⟨i, h⟩) with
      | some optionName =>
        match findSpecifier optionName with
        | some sp =>
          if i + 1 < argv.length then
            parseLoop fuel ((argv.eraseIdx i).eraseIdx i) i
              (applyOption sp.2 (argv.getD (i + 1) []) st) errs
          else
            parseLoop fuel argv (i + 1) st (errs ++ [sp.1])
        | none => parseLoop fuel argv (i + 1) st errs
      | none => parseLoop fuel argv (i + 1) st errs
    else (argv, st, errs)

/-- `parseOptions(argcp, argv)`: run the loop from index 1. Returns the
adjusted argv (whose length is the decremented argc), the option values,
and the emitted error messages. -/
def parseOptions (argv : List (List Char)) (st : ArachneOptions) :
    List (List Char) × ArachneOptions × List (List Char) :=
  parseLoop argv.length argv 1 st []

/-- Spec-side recursion over the tokens after `argv[0]`: consume a
prefix-recognized `--` option together with its following argument; report
and keep a recognized option with no following argument; pass every other
token through in order. -/
def specConsume : List (List Char) → ArachneOptions → List (List Char) →
    List (List Char) × ArachneOptions × List (List Char)
  | [], st, errs => ([], st, errs)
  | a :: rest, st, errs =>
    match parseToken a with
    | some optionName =>
      match findSpecifier optionName with
      | some sp =>
        match rest with
        | arg :: rest2 => specConsume rest2 (applyOption sp.2 arg st) errs
        | [] => ([a], st, errs ++ [sp.1])
      | none =>
        let r := specConsume rest st errs
        (a :: r.1, r.2)
    | none =>
      let r := specConsume rest st errs
      (a :: r.1, r.2)

theorem parseLoop_eq_specConsume :
    ∀ (fuel : Nat) (argv : List (List Char)) (i : Nat) (st : ArachneOptions)
      (errs : List (List Char)), argv.length ≤ fuel + i →
      parseLoop fuel argv i st errs =
        (argv.take i ++ (specConsume (argv.drop i) st errs).1,
          (specConsume (argv.drop i) st errs).2) := by
  intro fuel
  induction fuel with
  | zero =>
    intro argv i st errs hle
    have hdrop : argv.drop i = [] := List.drop_eq_nil_of_le (by omega)
    rw [hdrop]
    simp only [parseLoop, specConsume]
    simp [List.take_of_length_le (show argv.length ≤ i by omega)]
  | succ fuel ih =>
    intro argv i st errs hle
    by_cases h : i < argv.length
    · have hdrop : argv.drop i = argv.get ⟨i, h⟩ :: argv.drop (i + 1) :=
        (List.get_cons_drop argv ⟨i, h⟩).symm
      have htake : argv.take (i + 1) = argv.take i ++ [argv.get ⟨i, h⟩] := by
        rw [List.take_succ, List.getElem?_eq_getElem h]
        simp
      cases htok : parseToken (argv.get ⟨i, h⟩) with
      | none =>
        have hstep : parseLoop (fuel + 1) argv i st errs =
            parseLoop fuel argv (i + 1) st errs := by
          simp only [parseLoop]
          rw [dif_pos h, htok]
        have hspec : specConsume (argv.drop i) st errs =
            (argv.get ⟨i, h⟩ :: (specConsume (argv.drop (i + 1)) st errs).1,
              (specConsume (argv.drop (i + 1)) st errs).2) := by
          rw [hdrop]
          simp only [specConsume]
          rw [htok]
        rw [hstep, ih argv (i + 1) st errs (by omega), hspec, htake,
          List.append_assoc]
        rfl
      | some optionName =>
        cases hspecf : findSpecifier optionName with
        | none =>
          have hstep : parseLoop (fuel + 1) argv i st errs =
              parseLoop fuel argv (i + 1) st errs := by
            simp only [parseLoop]
            rw [dif_pos h, htok]
            simp only [hspecf]
          have hspec : specConsume (argv.drop i) st errs =
              (argv.get ⟨i, h⟩ :: (specConsume (argv.drop (i + 1)) st errs).1,
                (specConsume (argv.drop (i + 1)) st errs).2) := by
            rw [hdrop]
            simp only [specConsume]
            rw [htok]
            simp only [hspecf]
          rw [hstep, ih argv (i + 1) st errs (by omega), hspec, htake,
            List.append_assoc]
          rfl
        | some sp =>
          by_cases harg : i + 1 < argv.length
          · have hstep : parseLoop (fuel + 1) argv i st errs =
                parseLoop fuel ((argv.eraseIdx i).eraseIdx i) i
                  (applyOption sp.2 (argv.getD (i + 1) []) st) errs := by
              simp only [parseLoop]
              rw [dif_pos h, htok]
              simp only [hspecf]
              rw [if_pos harg]
            have hlentake : (argv.take i).length = i := by
              rw [List.length_take]
              omega
            have herase : (argv.eraseIdx i).eraseIdx i =
                argv.take i ++ argv.drop (i + 2) := by
              rw [List.eraseIdx_eq_take_drop_succ, List.eraseIdx_eq_take_drop_succ,
                List.take_left' hlentake]
              congr 1
              have hd : List.drop (i + 1) (argv.take i ++ argv.drop (i + 1)) =
                  List.drop 1 (argv.drop (i + 1)) := by
                have : i + 1 = (argv.take i).length + 1 := by omega
                rw [this, List.drop_append]
              rw [hd, List.drop_drop]
            have hgetD : argv.getD (i + 1) [] = argv.get ⟨i + 1, harg⟩ := by
              rw [List.getD_eq_getElem?_getD, List.getElem?_eq_getElem harg]
              rfl
            have hdrop1 : argv.drop (i + 1) =
                argv.get ⟨i + 1, harg⟩ :: argv.drop (i + 2) :=
              (List.get_cons_drop argv ⟨i + 1, harg⟩).symm
            have hspec : specConsume (argv.drop i) st errs =
                specConsume (argv.drop (i + 2))
                  (applyOption sp.2 (argv.get ⟨i + 1, harg⟩) st) errs := by
              rw [hdrop, hdrop1]
              simp only [specConsume]
              rw [htok]
              simp only [hspecf]
            have hlen2 : ((argv.eraseIdx i).eraseIdx i).length ≤ fuel + i := by
              rw [herase]
              simp only [List.length_append, List.length_drop]
              omega
            rw [hstep, ih _ i _ errs hlen2, hspec, hgetD]
            rw [herase, List.take_left' hlentake, List.drop_left' hlentake]
          · have hstep : parseLoop (fuel + 1) argv i st errs =
                parseLoop fuel argv (i + 1) st (errs ++ [sp.1]) := by
              simp only [parseLoop]
              rw [dif_pos h, htok]
              simp only [hspecf]
              rw [if_neg harg]
            have hdrop1 : argv.drop (i + 1) = [] :=
              List.drop_eq_nil_of_le (by omega)
            have hspec : specConsume (argv.drop i) st errs =
                ([argv.get ⟨i, h⟩], st, errs ++ [sp.1]) := by
              rw [hdrop, hdrop1]
              simp only [specConsume]
              rw [htok]
              simp only [hspecf]
            rw [hstep, ih argv (i + 1) st (errs ++ [sp.1]) (by omega), hspec,
              hdrop1, htake]
            simp only [specConsume]
            simp
    · have hdrop : argv.drop i = [] := List.drop_eq_nil_of_le (by omega)
      rw [hdrop]
      simp only [parseLoop]
      rw [dif_neg h]
      simp only [specConsume]
      simp [List.take_of_length_le (show argv.length ≤ i by omega)]

/-- Claim C9 (amended): `parseOptions` scans the tokens after `argv[0]`;
a token of the form `--X` where one of `numCores`, `maxNumCores`,
`stackSize` is a **prefix** of `X` (tried in that order) is consumed
together with the following token, whose `atoi` value is stored into the
matching variable (removing both from argv and decrementing argc by 2); a
recognized option with no following token produces a missing-argument
message on the error stream, is ignored, and stays in argv; every other
token — including `--` tokens matching no prefix — passes through
unchanged in its original relative order. -/
theorem parseOptions_eq_specConsume (argv : List (List Char)) (st : ArachneOptions) :
    parseOptions argv st =
      (argv.take 1 ++ (specConsume (argv.drop 1) st []).1,
        (specConsume (argv.drop 1) st []).2) :=
  parseLoop_eq_specConsume argv.length argv 1 st [] (by omega)

/-- The argument vector `["prog", "--numCoresX", "7"]`: its middle token
is not one of the three documented options. -/
def c9argv : List (List Char) :=
  [['p','r','o','g'], ['-','-','n','u','m','C','o','r','e','s','X'], ['7']]

/-- Claim C9 (counterexample): on `["prog", "--numCoresX", "7"]` the
claim, as stated, requires the unknown option `--numCoresX` to be passed
through unchanged; instead `parseOptions` consumes it and its argument by
prefix match and stores `numCores = 7`, leaving only `["prog"]`. -/
theorem parseOptions_prefix_counterexample :
    (parseOptions c9argv ⟨0, 0, 1048576⟩).1 = [['p','r','o','g']] ∧
    (parseOptions c9argv ⟨0, 0, 1048576⟩).2.1.numCores = 7 ∧
    (parseOptions c9argv ⟨0, 0, 1048576⟩).1 ≠ c9argv := by
  refine ⟨by decide, by decide, by decide⟩

end Arachne
